import Mathlib

/-!
Verification of the PoC streaming task-planner backend
(`poc/backend/main.py`): the LangGraph planner loop
(`generate_task_node`, `should_continue`), and the SSE stream generator
(`task_stream_generator`) with its progressive-reveal frame protocol.

Strings are modelled as Lean `String` (a list of characters, matching
Python `str` slicing by code point).  The LLM (the generation oracle) is
external and non-deterministic; a run is determined by the sequence of
responses the oracle gives, one per call, so the oracle is modelled as a
function from the call index to a response.  Likewise `uuid.uuid4()` is
modelled as a supply of identifier strings indexed by call number.
-/

namespace Poc

/-- Python `full_description[:n]` on a string: the first `n` characters
(all of them when `n` exceeds the length). -/
def strTake (s : String) (n : Nat) : String := String.mk (s.data.take n)

/-- `class Task(BaseModel)`: the structure for a single task card
streamed to the frontend (fields `id`, `title`, `description`, `tags`). -/
structure Task where
  id : String
  title : String
  description : String
  tags : List String
deriving DecidableEq, Repr

/-- `class AgentState(TypedDict)`: the state passed between nodes in the
LangGraph (`prompt`, `tasks`, `finished`). -/
structure AgentState where
  prompt : String
  tasks : List Task
  finished : Bool
deriving DecidableEq, Repr

/-- One response of the generation oracle (`structured_llm.invoke`).
`ok task is_finished` is a well-formed `TaskGeneration` value
(fields `task : Optional[Task]` and `is_finished : bool`);
`failure detail` is an exception raised by the call (transport error,
malformed output rejected by the structured-output parser, ...),
carrying `str(e)`. -/
inductive OracleResult where
  | ok (task : Option Task) (is_finished : Bool)
  | failure (detail : String)
deriving DecidableEq, Repr

/-- The constant `10` in `should_continue`
(`if len(state["tasks"]) >= 10: return END`). -/
def maxTasks : Nat := 10

/-- `chunk_size = 4` in `task_stream_generator`. -/
def chunk_size : Nat := 4

/-- `generate_task_node(state)` from `poc/backend/main.py`, with the
oracle's response and the fresh identifier injected as arguments.  The
Python node returns a partial state dict that LangGraph merges into the
state (overwriting the named channels); here the merged state is
returned directly.
* `result.is_finished` true → `{"finished": True}`;
* a present `result.task` → the task, with `id` replaced by a fresh
  uuid when it is the empty string, is appended to `tasks` and
  `finished` is set to `False`;
* `result.task` absent → `{"finished": True}`;
* any exception from the call is caught (`except Exception`) and the
  node returns `{"finished": True}`. -/
def generate_task_node (fresh : String) (state : AgentState)
    (result : OracleResult) : AgentState :=
  match result with
  | OracleResult.failure _ => { state with finished := true }
  | OracleResult.ok t fin =>
    if fin then { state with finished := true }
    else
      match t with
      | some task =>
        let task' := if task.id = "" then { task with id := fresh } else task
        { state with tasks := state.tasks ++ [task'], finished := false }
      | none => { state with finished := true }

/-- `should_continue(state)`: `true` stands for the edge back to the
`"planner"` node, `false` for `END`. -/
def should_continue (state : AgentState) : Bool :=
  if state.finished then false
  else if maxTasks ≤ state.tasks.length then false
  else true

/-- The compiled graph (`workflow.compile()`) run from state `state`,
with the `k`-th oracle call answered by `oracle k` and the `k`-th fresh
uuid being `ids k`: the list of states after each superstep, in the
order `astream(..., stream_mode="values")` yields them (the input state
itself is prepended by `runStates`).  `fuel` is an upper bound on the
number of supersteps; `maxTasks + 1` is always enough (see
`loopStates_fuel_irrelevant`). -/
def loopStates (oracle : Nat → OracleResult) (ids : Nat → String)
    (k : Nat) (state : AgentState) (fuel : Nat) : List AgentState :=
  match fuel with
  | 0 => []
  | fuel' + 1 =>
    let st' := generate_task_node (ids k) state (oracle k)
    if should_continue st' then st' :: loopStates oracle ids (k + 1) st' fuel'
    else [st']

/-- The initial state built in `task_stream_generator`:
`AgentState(prompt=project_prompt, tasks=[], finished=False)`. -/
def initState (prompt : String) : AgentState :=
  { prompt := prompt, tasks := [], finished := false }

/-- The full sequence of states yielded by
`langgraph_app.astream(initial_state, stream_mode="values")`:
the initial state followed by the state after each superstep. -/
def runStates (oracle : Nat → OracleResult) (ids : Nat → String)
    (prompt : String) : List AgentState :=
  initState prompt ::
    loopStates oracle ids 0 (initState prompt) (maxTasks + 1)

/-- One SSE frame body written by `task_stream_generator`: either a
Task-shape JSON object (serialised `Task`), or one of the two
status-shape objects `{"status": "completed"}` and
`{"status": "error", "detail": ...}`. -/
inductive Frame where
  | task (t : Task)
  | completed
  | error (detail : String)
deriving DecidableEq, Repr

/-- The reveal frames written for one newly completed task
(`# --- UI SIMULATION START ---` block): first the task with
`description` emptied, then one frame per `j in range(0, len(full),
chunk_size)` carrying `full_description[:j+chunk_size]`, then the full
task. -/
def revealFrames (t : Task) : List Frame :=
  Frame.task { t with description := "" } ::
    (List.range ((t.description.length + chunk_size - 1) / chunk_size)).map
      (fun j =>
        Frame.task
          { t with description :=
              strTake t.description (j * chunk_size + chunk_size) }) ++
    [Frame.task t]

/-- The body of the `async for state_change in ...` loop of
`task_stream_generator`, folded over the list of yielded states with the
running value of `num_tasks_sent`: for each state, the reveal frames of
each task beyond index `num_tasks_sent` are written and the counter
advanced; then, if the state has `finished` set, the
`{"status": "completed"}` frame is written and the loop breaks.  (The
`except` branch of the generator, which writes the
`{"status": "error"}` frame, is reachable only if the graph machinery
itself raises: `generate_task_node` catches every exception of the
oracle call, so no oracle behaviour triggers it.) -/
def framesLoop : List AgentState → Nat → List Frame
  | [], _ => []
  | st :: rest, sent =>
    (st.tasks.drop sent).flatMap revealFrames ++
      (if st.finished then [Frame.completed]
       else framesLoop rest (max sent st.tasks.length))

/-- The whole NDJSON/SSE frame sequence produced by
`task_stream_generator(project_prompt)` for a given oracle behaviour
and uuid supply. -/
def streamFrames (oracle : Nat → OracleResult) (ids : Nat → String)
    (prompt : String) : List Frame :=
  framesLoop (runStates oracle ids prompt) 0

/-- The last state of the run (the state in which the graph halted). -/
def finalState (oracle : Nat → OracleResult) (ids : Nat → String)
    (prompt : String) : AgentState :=
  (runStates oracle ids prompt).getLastD (initState prompt)

/-- Status-shape frames (`{"status": ...}` JSON objects). -/
def isStatusFrame : Frame → Bool
  | Frame.task _ => false
  | Frame.completed => true
  | Frame.error _ => true

/-- The `{"status": "error", ...}` frame. -/
def isErrorFrame : Frame → Bool
  | Frame.error _ => true
  | _ => false

/-- The `id` field of a Task-shape frame. -/
def frameId : Frame → Option String
  | Frame.task t => some t.id
  | _ => none

/-- The `description` fields of the Task-shape frames of a reveal
sequence, in emission order. -/
def frameDescs (t : Task) : List String :=
  (revealFrames t).filterMap (fun f =>
    match f with
    | Frame.task u => some u.description
    | _ => none)

/-- An oracle response that makes the planner loop succeed with one more
task: a well-formed `TaskGeneration` with `is_finished = False` and a
task present. -/
def returnsTask : OracleResult → Bool
  | OracleResult.ok (some _) false => true
  | _ => false

/-- An oracle call that fails in the sense of §7 of the design: either
the call raises, or the structured response is degenerate (no task and
`is_finished = False`). -/
def oracleFailed : OracleResult → Bool
  | OracleResult.failure _ => true
  | OracleResult.ok none false => true
  | _ => false

/-- Adjacent-pair check over a list of descriptions: each entry is a
strict prefix of the next (the property §4.2 of the design claims of
consecutive reveal frames). -/
def strictChain : List String → Bool
  | a :: b :: r => (strTake b a.length == a) && (a != b) && strictChain (b :: r)
  | _ => true

/-- Concrete task with a 2-character description (one chunk), used to
evaluate runs on concrete inputs. -/
def tA : Task :=
  { id := "a1", title := "T1", description := "ab", tags := ["x"] }

/-- Concrete task with an empty description. -/
def tB : Task := { id := "b2", title := "T2", description := "", tags := [] }

/-- An oracle that returns a new task on every call and never signals
finished and never fails. -/
def oracleAlways : Nat → OracleResult :=
  fun _ => OracleResult.ok (some tA) false

/-- An oracle whose first two calls return tasks and whose third call
(and every later one) raises. -/
def oracleThirdFails : Nat → OracleResult := fun n =>
  if n = 0 then OracleResult.ok (some tA) false
  else if n = 1 then OracleResult.ok (some tB) false
  else OracleResult.failure "boom"

/-- A concrete uuid supply. -/
def idsFixed : Nat → String := fun _ => "generated-id"

/-- A second, different concrete uuid supply. -/
def idsVaried : Nat → String := fun n => String.mk (List.replicate (n + 1) 'u')

/-! ### Basic lemmas about one node execution -/

/-- Every execution of `generate_task_node` either only sets `finished`
(leaving `tasks` untouched) or appends exactly one task and clears
`finished`. -/
lemma node_shape (fresh : String) (st : AgentState) (r : OracleResult) :
    generate_task_node fresh st r = { st with finished := true } ∨
    ∃ t, generate_task_node fresh st r =
      { st with tasks := st.tasks ++ [t], finished := false } := by
  cases r with
  | failure d => exact Or.inl rfl
  | ok t fin =>
    cases fin with
    | true => exact Or.inl rfl
    | false =>
      cases t with
      | none => exact Or.inl rfl
      | some task =>
        exact Or.inr ⟨if task.id = "" then { task with id := fresh } else task,
          by simp [generate_task_node]⟩

/-- A failing or degenerate oracle call makes the node behave exactly as
the finish signal does. -/
lemma node_of_failed (fresh : String) (st : AgentState) (r : OracleResult)
    (h : oracleFailed r = true) :
    generate_task_node fresh st r = { st with finished := true } := by
  cases r with
  | failure d => rfl
  | ok t fin =>
    cases fin with
    | true => rfl
    | false =>
      cases t with
      | none => rfl
      | some task => simp [oracleFailed] at h

/-- A successful task-returning oracle call appends exactly the stored
candidate (with a generated id when the candidate's id is empty). -/
lemma node_of_task (fresh : String) (st : AgentState) (t : Task)
    (h : r = OracleResult.ok (some t) false) :
    generate_task_node fresh st r =
      { st with
          tasks := st.tasks ++
            [if t.id = "" then { t with id := fresh } else t],
          finished := false } := by
  subst h; simp [generate_task_node]

/-- `should_continue` routes back to the planner exactly when the state
is not finished and strictly fewer than `maxTasks` tasks exist. -/
lemma should_continue_iff (st : AgentState) :
    should_continue st = true ↔
      st.finished = false ∧ st.tasks.length < maxTasks := by
  unfold should_continue
  cases hf : st.finished <;> simp

/-! ### Lemmas about the loop trace -/

/-- The tasks of the state in which the loop halts extend the tasks of
the state it was started from (append-only accumulation). -/
lemma loop_tasks_extend (oracle : Nat → OracleResult) (ids : Nat → String) :
    ∀ (fuel k : Nat) (st : AgentState),
      ∃ l, ((loopStates oracle ids k st fuel).getLastD st).tasks =
        st.tasks ++ l := by
  intro fuel
  induction fuel with
  | zero => exact fun k st => ⟨[], by simp [loopStates]⟩
  | succ n ih =>
    intro k st
    simp only [loopStates]
    by_cases hc : should_continue (generate_task_node (ids k) st (oracle k)) = true
    · rw [if_pos hc, List.getLastD_cons]
      obtain ⟨l, hl⟩ := ih (k + 1) (generate_task_node (ids k) st (oracle k))
      rcases node_shape (ids k) st (oracle k) with h | ⟨t, h⟩
      · refine ⟨l, ?_⟩
        rw [hl, h]
      · refine ⟨t :: l, ?_⟩
        rw [hl, h]
        simp
    · rw [if_neg hc]
      simp only [List.getLastD_cons, List.getLastD_nil]
      rcases node_shape (ids k) st (oracle k) with h | ⟨t, h⟩
      · exact ⟨[], by rw [h]; simp⟩
      · exact ⟨[t], by rw [h]⟩

/-- Main structure lemma for the generator body: started on the loop's
trace with `num_tasks_sent` equal to the number of tasks already in the
state, the generator writes exactly the reveal frames of the tasks the
loop appends, in order, followed by the `completed` status frame
exactly when the final state has `finished` set. -/
lemma framesLoop_eq (oracle : Nat → OracleResult) (ids : Nat → String) :
    ∀ (fuel k : Nat) (st : AgentState), st.finished = false →
      framesLoop (loopStates oracle ids k st fuel) st.tasks.length =
        ((((loopStates oracle ids k st fuel).getLastD st).tasks).drop
            st.tasks.length).flatMap revealFrames ++
          (if ((loopStates oracle ids k st fuel).getLastD st).finished then
            [Frame.completed] else []) := by
  intro fuel
  induction fuel with
  | zero =>
    intro k st hfin
    simp [loopStates, framesLoop, hfin]
  | succ n ih =>
    intro k st hfin
    simp only [loopStates]
    by_cases hc : should_continue (generate_task_node (ids k) st (oracle k)) = true
    · rcases node_shape (ids k) st (oracle k) with h | ⟨t, h⟩
      · exfalso
        rw [should_continue_iff, h] at hc
        simp at hc
      · rw [h] at hc
        simp only [h, if_pos hc, List.getLastD_cons]
        obtain ⟨l, hl⟩ :=
          loop_tasks_extend oracle ids n (k + 1)
            { st with tasks := st.tasks ++ [t], finished := false }
        have ihs := ih (k + 1)
          { st with tasks := st.tasks ++ [t], finished := false } rfl
        simp only [framesLoop]
        rw [hl] at ihs ⊢
        simp only at ihs ⊢
        have hd1 : ((st.tasks ++ [t]) ++ l).drop st.tasks.length = t :: l := by
          rw [List.append_assoc]
          simp
        have hd2 : ((st.tasks ++ [t]) ++ l).drop (st.tasks ++ [t]).length
            = l := by simp
        have hlen : (st.tasks ++ [t]).length = st.tasks.length + 1 := by simp
        have hmax : max st.tasks.length (st.tasks ++ [t]).length =
            (st.tasks ++ [t]).length := by
          rw [hlen]; omega
        rw [hd1, hmax, ihs, hd2]
        simp
    · simp only [if_neg hc, List.getLastD_cons, List.getLastD_nil]
      cases hf2 : (generate_task_node (ids k) st (oracle k)).finished <;>
        simp [framesLoop, hf2]

/-- The frame sequence of a full run: the reveal frames of the finally
accumulated tasks, in order, followed by the `completed` status frame
exactly when the final state has `finished` set (on the capped path,
where `finished` stays `false`, no status frame is written at all). -/
theorem streamFrames_eq (oracle : Nat → OracleResult) (ids : Nat → String)
    (prompt : String) :
    streamFrames oracle ids prompt =
      ((finalState oracle ids prompt).tasks).flatMap revealFrames ++
        (if (finalState oracle ids prompt).finished then [Frame.completed]
         else []) := by
  have h := framesLoop_eq oracle ids (maxTasks + 1) 0 (initState prompt) rfl
  simp only [initState, List.length_nil] at h
  simp only [streamFrames, runStates, finalState, List.getLastD_cons]
  rw [show framesLoop
      (initState prompt ::
        loopStates oracle ids 0 (initState prompt) (maxTasks + 1)) 0 =
      framesLoop (loopStates oracle ids 0 (initState prompt) (maxTasks + 1))
        0 from by simp [framesLoop, initState]]
  exact h

/-! ### Lemmas about reveal frames -/

/-- Every reveal frame is Task-shape: reveal sequences contain no
status frame. -/
lemma revealFrames_not_status (t : Task) :
    ∀ f ∈ revealFrames t, isStatusFrame f = false := by
  intro f hf
  simp only [revealFrames, List.mem_cons, List.mem_append, List.mem_map,
    List.mem_range, List.mem_singleton, List.not_mem_nil, or_false] at hf
  rcases hf with (rfl | ⟨j, hj, rfl⟩) | rfl <;> rfl

/-! ### Classifying runs by the oracle behaviour -/

/-- A `returnsTask` response is exactly a well-formed response carrying
a task and not finished. -/
lemma returnsTask_eq (r : OracleResult) (h : returnsTask r = true) :
    ∃ t, r = OracleResult.ok (some t) false := by
  cases r with
  | failure d => simp [returnsTask] at h
  | ok t fin =>
    cases t with
    | none => cases fin <;> simp [returnsTask] at h
    | some task =>
      cases fin with
      | false => exact ⟨task, rfl⟩
      | true => simp [returnsTask] at h

/-- On a task-returning oracle response, the node appends one task and
clears `finished`. -/
lemma node_task_of_returnsTask (fresh : String) (st : AgentState)
    (r : OracleResult) (h : returnsTask r = true) :
    ∃ t', generate_task_node fresh st r =
      { st with tasks := st.tasks ++ [t'], finished := false } := by
  obtain ⟨t, ht⟩ := returnsTask_eq r h
  exact ⟨if t.id = "" then { t with id := fresh } else t,
    node_of_task fresh st t ht⟩

/-- If the oracle returns a task on every call, the loop halts with
exactly `maxTasks` tasks and with `finished` still `false` (only the
cap in `should_continue` stops it, and nothing ever sets `finished`). -/
lemma loop_all_tasks (oracle : Nat → OracleResult) (ids : Nat → String)
    (H : ∀ j, returnsTask (oracle j) = true) :
    ∀ (fuel k : Nat) (st : AgentState), st.finished = false →
      st.tasks.length < maxTasks → maxTasks - st.tasks.length ≤ fuel →
      ((loopStates oracle ids k st fuel).getLastD st).tasks.length =
        maxTasks ∧
      ((loopStates oracle ids k st fuel).getLastD st).finished = false := by
  intro fuel
  induction fuel with
  | zero =>
    intro k st _ h2 h3
    exfalso
    omega
  | succ n ih =>
    intro k st h1 h2 h3
    obtain ⟨t', hnode⟩ :=
      node_task_of_returnsTask (ids k) st (oracle k) (H k)
    simp only [loopStates, hnode]
    by_cases hlt : st.tasks.length + 1 < maxTasks
    · have hcont : should_continue
          { st with tasks := st.tasks ++ [t'], finished := false } = true := by
        rw [should_continue_iff]
        exact ⟨rfl, by simp; omega⟩
      rw [if_pos hcont, List.getLastD_cons]
      exact ih (k + 1) { st with tasks := st.tasks ++ [t'], finished := false }
        rfl (by simp; omega) (by simp; omega)
    · have hstop : ¬ should_continue
          { st with tasks := st.tasks ++ [t'], finished := false } = true := by
        rw [should_continue_iff]
        simp
        omega
      rw [if_neg hstop]
      refine ⟨?_, rfl⟩
      simp
      omega

/-- If the oracle returns a task on each of the first `m` calls and the
call after them fails (in the `oracleFailed` sense), and the cap is not
reached first, the loop halts with exactly `m` more tasks than it
started with and with `finished` set. -/
lemma loop_fail_at (oracle : Nat → OracleResult) (ids : Nat → String) :
    ∀ (m fuel k : Nat) (st : AgentState), st.finished = false →
      st.tasks.length + m < maxTasks → m < fuel →
      (∀ j, j < m → returnsTask (oracle (k + j)) = true) →
      oracleFailed (oracle (k + m)) = true →
      ((loopStates oracle ids k st fuel).getLastD st).tasks.length =
        st.tasks.length + m ∧
      ((loopStates oracle ids k st fuel).getLastD st).finished = true := by
  intro m
  induction m with
  | zero =>
    intro fuel k st h1 h2 h3 _ hfail
    cases fuel with
    | zero => omega
    | succ n =>
      have hnode := node_of_failed (ids k) st (oracle k)
        (by simpa using hfail)
      simp only [loopStates, hnode]
      have hstop : ¬ should_continue { st with finished := true } = true := by
        rw [should_continue_iff]
        simp
      rw [if_neg hstop]
      exact ⟨by simp, rfl⟩
  | succ m ih =>
    intro fuel k st h1 h2 h3 Hj hfail
    cases fuel with
    | zero => omega
    | succ n =>
      obtain ⟨t', hnode⟩ :=
        node_task_of_returnsTask (ids k) st (oracle k)
          (by simpa using Hj 0 (Nat.succ_pos m))
      simp only [loopStates, hnode]
      have hcont : should_continue
          { st with tasks := st.tasks ++ [t'], finished := false } = true := by
        rw [should_continue_iff]
        exact ⟨rfl, by simp; omega⟩
      rw [if_pos hcont, List.getLastD_cons]
      have hrec := ih n (k + 1)
        { st with tasks := st.tasks ++ [t'], finished := false }
        rfl (by simp; omega) (by omega)
        (fun j hj => by
          have := Hj (j + 1) (by omega)
          simpa [Nat.add_assoc, Nat.add_comm 1 j] using this)
        (by
          have heq : k + 1 + m = k + (m + 1) := by omega
          rw [heq]
          exact hfail)
      refine ⟨?_, hrec.2⟩
      rw [hrec.1]
      simp
      omega

/-- Fuel does not matter once it exceeds `maxTasks` minus the number of
tasks already accumulated: the loop always halts within that many
supersteps.  This is the termination argument — `maxTasks` bounds the
loop regardless of the oracle's behaviour. -/
lemma loop_fuel_stable (oracle : Nat → OracleResult) (ids : Nat → String) :
    ∀ (n m k : Nat) (st : AgentState), st.finished = false →
      st.tasks.length < maxTasks →
      maxTasks - st.tasks.length < n → maxTasks - st.tasks.length < m →
      loopStates oracle ids k st n = loopStates oracle ids k st m := by
  intro n
  induction n with
  | zero =>
    intro m k st _ h2 h3 _
    omega
  | succ n ih =>
    intro m k st h1 h2 h3 h4
    cases m with
    | zero => omega
    | succ m' =>
      simp only [loopStates]
      by_cases hc : should_continue (generate_task_node (ids k) st (oracle k)) = true
      · rw [if_pos hc, if_pos hc]
        rcases node_shape (ids k) st (oracle k) with h | ⟨t, h⟩
        · exfalso
          rw [should_continue_iff, h] at hc
          simp at hc
        · have hfin' : (generate_task_node (ids k) st (oracle k)).finished
              = false := by rw [h]
          have hlen' : (generate_task_node (ids k) st (oracle k)).tasks.length
              = st.tasks.length + 1 := by rw [h]; simp
          have hlt' : (generate_task_node (ids k) st (oracle k)).tasks.length
              < maxTasks := ((should_continue_iff _).mp hc).2
          rw [ih m' (k + 1) (generate_task_node (ids k) st (oracle k))
            hfin' hlt' (by omega) (by omega)]
      · rw [if_neg hc, if_neg hc]

/-- The loop yields at most one state per unit of fuel. -/
lemma loop_length_le (oracle : Nat → OracleResult) (ids : Nat → String) :
    ∀ (fuel k : Nat) (st : AgentState),
      (loopStates oracle ids k st fuel).length ≤ fuel := by
  intro fuel
  induction fuel with
  | zero => intro k st; simp [loopStates]
  | succ n ih =>
    intro k st
    simp only [loopStates]
    by_cases hc : should_continue (generate_task_node (ids k) st (oracle k)) = true
    · rw [if_pos hc]
      simpa using Nat.succ_le_succ (ih (k + 1) _)
    · rw [if_neg hc]
      simp

/-- The trace of states is a chain under the planner step relation:
each step leaves `tasks` unchanged or appends exactly one record, and
never resets `finished`; moreover every state of the trace holds at most
`maxTasks` tasks. -/
lemma loop_chain (oracle : Nat → OracleResult) (ids : Nat → String) :
    ∀ (fuel k : Nat) (st : AgentState), st.finished = false →
      st.tasks.length < maxTasks →
      List.Chain'
        (fun s s' : AgentState =>
          (s'.tasks = s.tasks ∨ ∃ t, s'.tasks = s.tasks ++ [t]) ∧
            (s.finished = true → s'.finished = true))
        (st :: loopStates oracle ids k st fuel) ∧
      ∀ s ∈ loopStates oracle ids k st fuel, s.tasks.length ≤ maxTasks := by
  intro fuel
  induction fuel with
  | zero =>
    intro k st _ _
    exact ⟨by simp [loopStates], by simp [loopStates]⟩
  | succ n ih =>
    intro k st h1 h2
    have hrel : (generate_task_node (ids k) st (oracle k)).tasks = st.tasks ∨
        ∃ t, (generate_task_node (ids k) st (oracle k)).tasks =
          st.tasks ++ [t] := by
      rcases node_shape (ids k) st (oracle k) with h | ⟨t, h⟩
      · exact Or.inl (by rw [h])
      · exact Or.inr ⟨t, by rw [h]⟩
    have hmono : st.finished = true →
        (generate_task_node (ids k) st (oracle k)).finished = true :=
      fun hft => absurd (h1 ▸ hft) (by simp)
    have hlen' : (generate_task_node (ids k) st (oracle k)).tasks.length ≤
        st.tasks.length + 1 := by
      rcases hrel with h | ⟨t, h⟩
      · rw [h]; omega
      · rw [h]; simp
    simp only [loopStates]
    by_cases hc : should_continue (generate_task_node (ids k) st (oracle k)) = true
    · rw [if_pos hc]
      obtain ⟨hfin', hlt'⟩ := (should_continue_iff _).mp hc
      obtain ⟨ihc, ihm⟩ := ih (k + 1) _ hfin' hlt'
      refine ⟨List.chain'_cons.mpr ⟨⟨hrel, hmono⟩, ihc⟩, ?_⟩
      intro s hs
      rcases List.mem_cons.mp hs with rfl | hs
      · omega
      · exact ihm s hs
    · rw [if_neg hc]
      refine ⟨List.chain'_cons.mpr ⟨⟨hrel, hmono⟩, List.chain'_singleton _⟩, ?_⟩
      intro s hs
      rcases List.mem_singleton.mp hs with rfl
      omega

/-- The node preserves the invariant that every stored task has a
non-empty id, provided the fresh identifier supplied to it is
non-empty. -/
lemma node_ids (fresh : String) (st : AgentState) (r : OracleResult)
    (hst : ∀ u ∈ st.tasks, u.id ≠ "") (hfresh : fresh ≠ "") :
    ∀ u ∈ (generate_task_node fresh st r).tasks, u.id ≠ "" := by
  intro u hu
  cases r with
  | failure d => exact hst u hu
  | ok t fin =>
    cases fin with
    | true => exact hst u hu
    | false =>
      cases t with
      | none => exact hst u hu
      | some c =>
        have htk : (generate_task_node fresh st
            (OracleResult.ok (some c) false)).tasks =
            st.tasks ++ [if c.id = "" then { c with id := fresh } else c] := by
          simp [generate_task_node]
        rw [htk] at hu
        rcases List.mem_append.mp hu with hu' | hu'
        · exact hst u hu'
        · rcases List.mem_singleton.mp hu' with rfl
          by_cases hid : c.id = "" <;> simp [hid, hfresh]

/-- In every trace state, every stored task has a non-empty id, as long
as the uuid supply never produces the empty string. -/
lemma loop_ids_nonempty (oracle : Nat → OracleResult) (ids : Nat → String)
    (Hids : ∀ n, ids n ≠ "") :
    ∀ (fuel k : Nat) (st : AgentState), (∀ u ∈ st.tasks, u.id ≠ "") →
      ∀ s ∈ loopStates oracle ids k st fuel, ∀ u ∈ s.tasks, u.id ≠ "" := by
  intro fuel
  induction fuel with
  | zero =>
    intro k st _ s hs
    simp [loopStates] at hs
  | succ n ih =>
    intro k st hst s hs
    have hst' := node_ids (ids k) st (oracle k) hst (Hids k)
    simp only [loopStates] at hs
    by_cases hc : should_continue (generate_task_node (ids k) st (oracle k)) = true
    · rw [if_pos hc] at hs
      rcases List.mem_cons.mp hs with rfl | hs
      · exact hst'
      · exact ih (k + 1) _ hst' s hs
    · rw [if_neg hc] at hs
      rcases List.mem_singleton.mp hs with rfl
      exact hst'

/-- When the oracle's candidate already carries a non-empty id, the
node does not consult the uuid supply at all. -/
lemma node_ids_indep (st : AgentState) (r : OracleResult)
    (h : ∀ t fin, r = OracleResult.ok (some t) fin → t.id ≠ "")
    (f1 f2 : String) :
    generate_task_node f1 st r = generate_task_node f2 st r := by
  cases r with
  | failure d => rfl
  | ok t fin =>
    cases fin with
    | true => rfl
    | false =>
      cases t with
      | none => rfl
      | some c =>
        have hc := h c false rfl
        simp [generate_task_node, hc]

/-- When all candidates of the oracle carry non-empty ids, the whole
trace is independent of the uuid supply. -/
lemma loop_ids_indep (oracle : Nat → OracleResult)
    (H : ∀ n t fin, oracle n = OracleResult.ok (some t) fin → t.id ≠ "")
    (ids1 ids2 : Nat → String) :
    ∀ (fuel k : Nat) (st : AgentState),
      loopStates oracle ids1 k st fuel = loopStates oracle ids2 k st fuel := by
  intro fuel
  induction fuel with
  | zero => intro k st; rfl
  | succ n ih =>
    intro k st
    have hn := node_ids_indep st (oracle k) (fun t fin ht => H k t fin ht)
      (ids1 k) (ids2 k)
    simp only [loopStates, hn]
    by_cases hc : should_continue (generate_task_node (ids2 k) st (oracle k)) = true
    · rw [if_pos hc, if_pos hc, ih]
    · rw [if_neg hc, if_neg hc]

/-- There is no status-shape frame among the reveal frames of any list
of tasks. -/
lemma flatMap_reveal_status (l : List Task) :
    (l.flatMap revealFrames).countP isStatusFrame = 0 := by
  rw [List.countP_eq_zero]
  intro f hf
  rw [List.mem_flatMap] at hf
  obtain ⟨t, _, hft⟩ := hf
  simp [revealFrames_not_status t f hft]

/-! ### Facts about string prefixes used by the reveal encoding -/

/-- `String.mk` undoes `String.data`. -/
lemma strMk_data (s : String) : String.mk s.data = s := rfl

/-- The characters of a truncation. -/
lemma strTake_data (s : String) (n : Nat) :
    (strTake s n).data = s.data.take n := rfl

/-- Length of a truncation. -/
lemma strTake_length (s : String) (n : Nat) :
    (strTake s n).length = min n s.length := by
  show (s.data.take n).length = min n s.data.length
  simp

/-- Taking at least the whole string is the identity. -/
lemma strTake_all (s : String) (n : Nat) (h : s.length ≤ n) :
    strTake s n = s := by
  show String.mk (s.data.take n) = s
  rw [List.take_of_length_le h]

/-- Truncations compose, keeping the smaller bound. -/
lemma strTake_strTake (s : String) (m n : Nat) :
    strTake (strTake s m) n = strTake s (min n m) := by
  show String.mk ((s.data.take m).take n) = String.mk (s.data.take (min n m))
  rw [List.take_take]

/-- `filterMap` with a total function is `map`. -/
lemma filterMap_some_eq_map {α β : Type} (f : α → β) (l : List α) :
    l.filterMap (fun x => some (f x)) = l.map f := by
  induction l with
  | nil => rfl
  | cons a l ih => simp [List.filterMap_cons, ih]

/-- The number of frames the reveal block writes for one task:
one initial empty-description frame, one frame per chunk of the
description (`ceil(L / chunk_size)` of them), and one final frame that
repeats the full description. -/
lemma revealFrames_length (t : Task) :
    (revealFrames t).length =
      (t.description.length + chunk_size - 1) / chunk_size + 2 := by
  simp [revealFrames]

/-- The description fields of the reveal frames, computed. -/
lemma frameDescs_eq (t : Task) :
    frameDescs t =
      "" :: ((List.range
          ((t.description.length + chunk_size - 1) / chunk_size)).map
        (fun j => strTake t.description (j * chunk_size + chunk_size)) ++
        [t.description]) := by
  simp [frameDescs, revealFrames, List.filterMap_cons, List.filterMap_append,
    filterMap_some_eq_map, List.filterMap_map, Function.comp_def]

/-- One description field per reveal frame. -/
lemma frameDescs_length (t : Task) :
    (frameDescs t).length = (revealFrames t).length := by
  rw [frameDescs_eq, revealFrames_length]
  simp

/-- Taking zero characters yields the empty string. -/
lemma strTake_zero (s : String) : strTake s 0 = "" := rfl

/-- The length bound in a truncation may be clamped to the string's
length. -/
lemma strTake_min (s : String) (m : Nat) :
    strTake s (min m s.length) = strTake s m := by
  by_cases h : m ≤ s.length
  · rw [Nat.min_eq_left h]
  · have h' : s.length ≤ m := by omega
    rw [Nat.min_eq_right h', strTake_all s m h',
      strTake_all s s.length (Nat.le_refl _)]

/-- The `i`-th reveal frame's description is exactly the first
`chunk_size * i` characters of the full description (clamped to its
length); this covers the initial empty frame (`i = 0`), the chunk
frames, and the final frame. -/
lemma frameDescs_get (t : Task) :
    ∀ i, i < (frameDescs t).length →
      (frameDescs t).get? i =
        some (strTake t.description (chunk_size * i)) := by
  intro i hi
  rw [frameDescs_length, revealFrames_length] at hi
  rw [frameDescs_eq]
  match i with
  | 0 =>
    rw [List.get?_cons_zero]
    rfl
  | Nat.succ j =>
    rw [List.get?_cons_succ]
    by_cases hj : j < (t.description.length + chunk_size - 1) / chunk_size
    · rw [List.get?_append (by simpa using hj)]
      rw [List.get?_map]
      rw [List.get?_range hj]
      simp only [Option.map_some']
      congr 2
      simp only [chunk_size]
      omega
    · have hj' : j = (t.description.length + chunk_size - 1) / chunk_size := by
        omega
      subst hj'
      rw [List.get?_append_right (by simp)]
      simp only [List.length_map, List.length_range, Nat.sub_self,
        List.get?_cons_zero]
      rw [strTake_all]
      simp only [chunk_size]
      omega

/-- The last reveal frame's description is the full description. -/
lemma frameDescs_getLast (t : Task) :
    (frameDescs t).getLast? = some t.description := by
  rw [frameDescs_eq, ← List.cons_append]
  exact List.getLast?_concat _

/-- Each reveal frame's description is a prefix (in the take sense) of
the next frame's description. -/
lemma frameDescs_step (t : Task) :
    ∀ (i : Nat) (s1 s2 : String), (frameDescs t).get? i = some s1 →
      (frameDescs t).get? (i + 1) = some s2 →
      strTake s2 s1.length = s1 := by
  intro i s1 s2 h1 h2
  obtain ⟨hlt, -⟩ := List.get?_eq_some.mp h2
  have hi : i < (frameDescs t).length := by omega
  rw [frameDescs_get t i hi] at h1
  rw [frameDescs_get t (i + 1) hlt] at h2
  obtain rfl := Option.some.inj h1
  obtain rfl := Option.some.inj h2
  rw [strTake_length, strTake_strTake]
  have harg : min (min (chunk_size * i) t.description.length)
      (chunk_size * (i + 1)) =
      min (chunk_size * i) t.description.length := by
    simp only [chunk_size]
    omega
  rw [harg, strTake_min]

/-- Each reveal frame's description is distinct from the next frame's
for every adjacent pair except the last one (where the chunk loop's
last frame already equals the full description repeated by the final
frame). -/
lemma frameDescs_strict (t : Task) :
    ∀ i, i + 2 < (frameDescs t).length →
      (frameDescs t).get? i ≠ (frameDescs t).get? (i + 1) := by
  intro i h
  have hlen := frameDescs_length t
  rw [revealFrames_length] at hlen
  have hi : i < (frameDescs t).length := by omega
  have hi1 : i + 1 < (frameDescs t).length := by omega
  rw [frameDescs_get t i hi, frameDescs_get t (i + 1) hi1]
  intro heq
  have hl := congrArg String.length (Option.some.inj heq)
  rw [strTake_length, strTake_length] at hl
  simp only [chunk_size] at hl h hlen
  omega

/-- Every reveal frame of a task carries exactly the stored task's id:
only the description differs between frames. -/
lemma revealFrames_id (t : Task) :
    ∀ f ∈ revealFrames t, frameId f = some t.id := by
  intro f hf
  simp only [revealFrames, List.mem_cons, List.mem_append, List.mem_map,
    List.mem_range, List.mem_singleton, List.not_mem_nil, or_false] at hf
  rcases hf with (rfl | ⟨j, hj, rfl⟩) | rfl <;> rfl

/-- No reveal frame is an error frame. -/
lemma revealFrames_not_error (t : Task) :
    ∀ f ∈ revealFrames t, isErrorFrame f = false := by
  intro f hf
  have h := revealFrames_not_status t f hf
  cases f with
  | task u => rfl
  | completed => simp [isStatusFrame] at h
  | error d => simp [isStatusFrame] at h

/-- There is no error frame among the reveal frames of any list of
tasks. -/
lemma flatMap_reveal_error (l : List Task) :
    (l.flatMap revealFrames).countP isErrorFrame = 0 := by
  rw [List.countP_eq_zero]
  intro f hf
  rw [List.mem_flatMap] at hf
  obtain ⟨t, _, hft⟩ := hf
  simp [revealFrames_not_error t f hft]

/-! ### Claim theorems -/

/-- C1, counterexample.  The claim states that when an oracle call
fails the stream ends with one terminal error status frame; on the code
this is FALSE: `generate_task_node` catches every exception of the
oracle call and returns `finished = True`, so with the third call
failing the stream ends with the `completed` status frame, contains no
error frame at all, and holds the reveal frames of exactly the 2
previously completed tasks. -/
theorem C1_counterexample :
    (streamFrames oracleThirdFails idsFixed "p").getLast? =
        some Frame.completed ∧
      (streamFrames oracleThirdFails idsFixed "p").countP isErrorFrame = 0 ∧
      (finalState oracleThirdFails idsFixed "p").tasks.length = 2 := by
  decide

/-- C1, amended.  For every run in which the oracle's calls `0..k-1`
return tasks and call `k` fails (raises, or returns a response with no
task and no finish signal), with `k` below the cap: the planner loop
terminates, the frames of exactly the `k` previously completed
TaskRecords were written, followed by one terminal `completed` status
frame — not an `error` frame, since the node converts the failure into
the finish signal — and no error frame occurs anywhere in the
stream. -/
theorem C1_oracle_failure (oracle : Nat → OracleResult) (ids : Nat → String)
    (p : String) (k : Nat) (hk : k < maxTasks)
    (htasks : ∀ j, j < k → returnsTask (oracle j) = true)
    (hfail : oracleFailed (oracle k) = true) :
    (finalState oracle ids p).tasks.length = k ∧
    streamFrames oracle ids p =
      ((finalState oracle ids p).tasks).flatMap revealFrames ++
        [Frame.completed] ∧
    (streamFrames oracle ids p).countP isErrorFrame = 0 := by
  have hrun := loop_fail_at oracle ids k (maxTasks + 1) 0 (initState p) rfl
    (by simpa [initState] using hk) (by omega)
    (fun j hj => by simpa using htasks j hj)
    (by simpa using hfail)
  have hfin : finalState oracle ids p =
      (loopStates oracle ids 0 (initState p) (maxTasks + 1)).getLastD
        (initState p) := by
    rw [finalState, runStates, List.getLastD_cons]
  rw [hfin]
  refine ⟨by rw [hrun.1]; simp [initState], ?_, ?_⟩
  · rw [streamFrames_eq, hfin, hrun.2]
    simp
  · rw [streamFrames_eq, hfin, hrun.2]
    simp only [if_true]
    rw [List.countP_append, flatMap_reveal_error]
    rfl

/-- C1, witness: the amended statement evaluated on the oracle whose
third call fails. -/
theorem C1_witness :
    (finalState oracleThirdFails idsFixed "p").tasks.length = 2 ∧
    streamFrames oracleThirdFails idsFixed "p" =
      ((finalState oracleThirdFails idsFixed "p").tasks).flatMap
          revealFrames ++ [Frame.completed] ∧
    (streamFrames oracleThirdFails idsFixed "p").countP isErrorFrame = 0 :=
  C1_oracle_failure oracleThirdFails idsFixed "p" 2 (by decide) (by decide)
    (by decide)

/-- C2, counterexample.  The claim states that when the oracle returns
a new task on every call the stream ends with a terminal `completed`
status frame; on the code this is FALSE: `should_continue` routes to
`END` at the cap without setting `finished`, and the generator only
writes the `completed` frame when `finished` is set, so the capped run
emits no status frame of any kind. -/
theorem C2_counterexample :
    (streamFrames oracleAlways idsFixed "p").countP isStatusFrame = 0 := by
  decide

/-- C2, amended.  For every run in which the oracle returns a new task
on every call, the planner loop terminates with exactly `maxTasks` (10)
tasks accumulated, but the stream ends after the tenth task's reveal
frames with NO terminal status frame (unlike the oracle-signaled
finished path, which ends with the `completed` frame): `finished`
remains `false` on the capped path. -/
theorem C2_capped_run (oracle : Nat → OracleResult) (ids : Nat → String)
    (p : String) (H : ∀ j, returnsTask (oracle j) = true) :
    (finalState oracle ids p).tasks.length = maxTasks ∧
    (finalState oracle ids p).finished = false ∧
    streamFrames oracle ids p =
      ((finalState oracle ids p).tasks).flatMap revealFrames ∧
    (streamFrames oracle ids p).countP isStatusFrame = 0 := by
  have hrun := loop_all_tasks oracle ids H (maxTasks + 1) 0 (initState p) rfl
    (by simp [initState, maxTasks]) (by omega)
  have hfin : finalState oracle ids p =
      (loopStates oracle ids 0 (initState p) (maxTasks + 1)).getLastD
        (initState p) := by
    rw [finalState, runStates, List.getLastD_cons]
  rw [hfin]
  refine ⟨hrun.1, hrun.2, ?_, ?_⟩
  · rw [streamFrames_eq, hfin, hrun.2]
    simp
  · rw [streamFrames_eq, hfin, hrun.2]
    simp only [Bool.false_eq_true, if_false, List.append_nil]
    exact flatMap_reveal_status _

/-- C2, witness: the amended statement evaluated on the oracle that
always returns a task. -/
theorem C2_witness :
    (finalState oracleAlways idsFixed "p").tasks.length = maxTasks ∧
    (finalState oracleAlways idsFixed "p").finished = false ∧
    streamFrames oracleAlways idsFixed "p" =
      ((finalState oracleAlways idsFixed "p").tasks).flatMap revealFrames ∧
    (streamFrames oracleAlways idsFixed "p").countP isStatusFrame = 0 :=
  C2_capped_run oracleAlways idsFixed "p" (fun _ => rfl)

/-- C3, counterexample.  The claim states that exactly one status-shape
frame is emitted per run; on the code this is FALSE for the capped run,
which emits zero status frames. -/
theorem C3_counterexample :
    ¬ (streamFrames oracleAlways idsFixed "p").countP isStatusFrame = 1 := by
  decide

/-- C3, amended.  For every run, at most one status-shape frame is
emitted, and every frame before the last one is Task-shape — so
whenever a status frame occurs it is the last frame of the stream; on
the capped path no status frame is emitted at all. -/
theorem C3_status_frame_last (oracle : Nat → OracleResult)
    (ids : Nat → String) (p : String) :
    (streamFrames oracle ids p).countP isStatusFrame ≤ 1 ∧
    ((streamFrames oracle ids p).dropLast).countP isStatusFrame = 0 := by
  rw [streamFrames_eq]
  cases hf : (finalState oracle ids p).finished with
  | true =>
    simp only [if_true]
    constructor
    · rw [List.countP_append, flatMap_reveal_status]
      simp [isStatusFrame]
    · rw [show (((finalState oracle ids p).tasks).flatMap revealFrames ++
          [Frame.completed]).dropLast =
          ((finalState oracle ids p).tasks).flatMap revealFrames from by simp]
      exact flatMap_reveal_status _
  | false =>
    simp only [Bool.false_eq_true, if_false, List.append_nil]
    constructor
    · rw [flatMap_reveal_status]
      omega
    · rw [List.countP_eq_zero]
      intro f hfmem
      have hsub := List.dropLast_subset _ hfmem
      have := List.countP_eq_zero.mp
        (flatMap_reveal_status ((finalState oracle ids p).tasks)) f hsub
      exact this

/-- C4, counterexample.  The claim states that the reveal emission for
a record with description length `L > 0` has exactly `ceil(L / C) + 1`
frames; on the code this is FALSE: for the concrete record with
`L = 2, C = 4` the code writes 3 frames (the claimed formula gives 2),
because the last chunk frame already carries the full description and
the final frame repeats it. -/
theorem C4_counterexample :
    ¬ ((revealFrames tA).length =
        (tA.description.length + chunk_size - 1) / chunk_size + 1) := by
  decide

/-- C4, amended.  For every completed TaskRecord with description
length `L` and chunk size `C = 4`, the reveal emission consists of
exactly `ceil(L / C) + 2` frames when `L > 0` (the last chunk frame
already equals the full description and the final frame duplicates it),
and exactly 2 frames when `L = 0` (initial empty-description frame and
final frame, no zero-length chunk loop). -/
theorem C4_reveal_frame_count (t : Task) :
    (revealFrames t).length =
      (t.description.length + chunk_size - 1) / chunk_size + 2 ∧
    (t.description.length = 0 → (revealFrames t).length = 2) := by
  refine ⟨revealFrames_length t, fun h => ?_⟩
  rw [revealFrames_length t, h]
  rfl

/-- C4, witness: the amended statement evaluated on the record with the
empty description. -/
theorem C4_witness :
    (revealFrames tB).length =
      (tB.description.length + chunk_size - 1) / chunk_size + 2 ∧
    (revealFrames tB).length = 2 :=
  ⟨(C4_reveal_frame_count tB).1, (C4_reveal_frame_count tB).2 (by decide)⟩

/-- C5, counterexample.  The claim states that each intermediate reveal
frame's description is a STRICT prefix of the next frame's description;
on the code this is FALSE: for the concrete record with description
"ab" the frame descriptions are `["", "ab", "ab"]`, and the chunk
frame's description equals (is not a strict prefix of) the final
frame's. -/
theorem C5_counterexample : strictChain (frameDescs tA) = false := by
  decide

/-- C5, amended.  For every completed TaskRecord: frame 0 carries
description `""`; the `i`-th frame carries the first
`min(len(full), i * chunkSize)` characters of the full description; the
final frame carries the full description; each frame's description is a
prefix of the next frame's; and adjacent descriptions are distinct
(strict prefixes) for every pair except the last one, where the last
chunk frame's description already equals the final frame's. -/
theorem C5_reveal_descriptions (t : Task) :
    (frameDescs t).get? 0 = some "" ∧
    (∀ i, i < (frameDescs t).length →
      (frameDescs t).get? i =
        some (strTake t.description (chunk_size * i))) ∧
    (frameDescs t).getLast? = some t.description ∧
    (∀ (i : Nat) (s1 s2 : String), (frameDescs t).get? i = some s1 →
      (frameDescs t).get? (i + 1) = some s2 →
      strTake s2 s1.length = s1) ∧
    (∀ i, i + 2 < (frameDescs t).length →
      (frameDescs t).get? i ≠ (frameDescs t).get? (i + 1)) := by
  refine ⟨?_, frameDescs_get t, frameDescs_getLast t, frameDescs_step t,
    frameDescs_strict t⟩
  have h0 : 0 < (frameDescs t).length := by
    rw [frameDescs_length, revealFrames_length]
    simp only [chunk_size]
    omega
  have := frameDescs_get t 0 h0
  simpa [strTake_zero] using this

/-- C5, witness: the amended statement evaluated on the concrete record
with description "ab". -/
theorem C5_witness :
    (frameDescs tA).get? 1 =
      some (strTake tA.description (chunk_size * 1)) ∧
    (frameDescs tA).getLast? = some tA.description :=
  ⟨(C5_reveal_descriptions tA).2.1 1 (by decide),
    (C5_reveal_descriptions tA).2.2.1⟩

/-- C6.  In every reachable state of the planner loop, for every oracle
behaviour: each step either leaves the tasks sequence unchanged or
appends exactly one new TaskRecord at the end, the `finished` flag
never transitions from `true` back to `false`, and
`len(tasks) <= maxTasks` holds in every state of the run. -/
theorem C6_state_invariants (oracle : Nat → OracleResult)
    (ids : Nat → String) (p : String) :
    List.Chain'
      (fun s s' : AgentState =>
        (s'.tasks = s.tasks ∨ ∃ t, s'.tasks = s.tasks ++ [t]) ∧
          (s.finished = true → s'.finished = true))
      (runStates oracle ids p) ∧
    ∀ s ∈ runStates oracle ids p, s.tasks.length ≤ maxTasks := by
  obtain ⟨hc, hm⟩ := loop_chain oracle ids (maxTasks + 1) 0 (initState p) rfl
    (by simp [initState, maxTasks])
  refine ⟨hc, ?_⟩
  intro s hs
  rcases List.mem_cons.mp hs with rfl | hs
  · simp [initState]
  · exact hm s hs

/-- C6, witness: the length invariant evaluated at the final state of a
concrete capped run. -/
theorem C6_witness :
    (finalState oracleAlways idsFixed "p").tasks.length ≤ maxTasks :=
  (C6_state_invariants oracleAlways idsFixed "p").2
    (finalState oracleAlways idsFixed "p") (by decide)

/-- C7.  For every oracle behaviour, the planner loop terminates after
finitely many oracle calls: any fuel of at least `maxTasks + 1`
supersteps yields the same trace as exactly `maxTasks + 1`, and the
trace contains at most `maxTasks + 1` node executions (oracle calls),
because the `maxTasks` bound is checked after every iteration. -/
theorem C7_termination (oracle : Nat → OracleResult) (ids : Nat → String)
    (p : String) (fuel : Nat) (hfuel : maxTasks + 1 ≤ fuel) :
    loopStates oracle ids 0 (initState p) fuel =
      loopStates oracle ids 0 (initState p) (maxTasks + 1) ∧
    (loopStates oracle ids 0 (initState p) (maxTasks + 1)).length ≤
      maxTasks + 1 := by
  have h0 : (initState p).tasks.length = 0 := rfl
  refine ⟨?_, loop_length_le oracle ids (maxTasks + 1) 0 (initState p)⟩
  exact loop_fuel_stable oracle ids fuel (maxTasks + 1) 0 (initState p) rfl
    (by rw [h0]; simp [maxTasks]) (by rw [h0]; omega) (by rw [h0]; omega)

/-- C7, witness: fuel-stability and the call bound evaluated on a
concrete oracle with one unit of extra fuel. -/
theorem C7_witness :
    loopStates oracleAlways idsFixed 0 (initState "p") (maxTasks + 2) =
      loopStates oracleAlways idsFixed 0 (initState "p") (maxTasks + 1) ∧
    (loopStates oracleAlways idsFixed 0 (initState "p")
        (maxTasks + 1)).length ≤ maxTasks + 1 :=
  C7_termination oracleAlways idsFixed "p" (maxTasks + 2) (by decide)

/-- C8.  For every run and every TaskRecord appended to the tasks
sequence: a candidate carrying a non-empty id is kept unchanged; a
candidate with an empty id gets the freshly generated identifier; and —
provided the uuid supply never produces the empty string, as
`str(uuid.uuid4())` never does — every task stored in any reachable
state has a non-empty id. -/
theorem C8_id_assignment (oracle : Nat → OracleResult) (ids : Nat → String)
    (p : String) :
    (∀ (fresh : String) (st : AgentState) (t : Task), t.id ≠ "" →
      generate_task_node fresh st (OracleResult.ok (some t) false) =
        { st with tasks := st.tasks ++ [t], finished := false }) ∧
    (∀ (fresh : String) (st : AgentState) (t : Task), t.id = "" →
      generate_task_node fresh st (OracleResult.ok (some t) false) =
        { st with
            tasks := st.tasks ++ [{ t with id := fresh }],
            finished := false }) ∧
    ((∀ n, ids n ≠ "") →
      ∀ s ∈ runStates oracle ids p, ∀ u ∈ s.tasks, u.id ≠ "") := by
  refine ⟨?_, ?_, ?_⟩
  · intro fresh st t ht
    rw [node_of_task fresh st t rfl]
    simp [ht]
  · intro fresh st t ht
    rw [node_of_task fresh st t rfl]
    simp [ht]
  · intro Hids s hs u hu
    rcases List.mem_cons.mp hs with rfl | hs
    · simp [initState] at hu
    · exact loop_ids_nonempty oracle ids Hids (maxTasks + 1) 0 (initState p)
        (by simp [initState]) s hs u hu

/-- C8, witness: the keep-the-id case evaluated on a concrete candidate
with a non-empty id. -/
theorem C8_witness :
    generate_task_node "fresh-id" (initState "p")
        (OracleResult.ok (some tA) false) =
      { initState "p" with
          tasks := (initState "p").tasks ++ [tA],
          finished := false } :=
  (C8_id_assignment oracleAlways idsFixed "p").1 "fresh-id" (initState "p")
    tA (by decide)

/-- C9.  The id under which a record is stored is identical in every
reveal frame emitted for it: every frame of `revealFrames t` carries
exactly `t.id`, and the Task-shape frames of the whole stream are
precisely the reveal frames of the finally stored records (id
assignment happened in the node, before the record was appended, and
all frames are derived from the appended record). -/
theorem C9_frame_id_consistency (oracle : Nat → OracleResult)
    (ids : Nat → String) (p : String) :
    (∀ (t : Task), ∀ f ∈ revealFrames t, frameId f = some t.id) ∧
    (streamFrames oracle ids p).filter (fun f => ! isStatusFrame f) =
      ((finalState oracle ids p).tasks).flatMap revealFrames := by
  refine ⟨fun t => revealFrames_id t, ?_⟩
  rw [streamFrames_eq]
  have hself : (((finalState oracle ids p).tasks).flatMap
      revealFrames).filter (fun f => ! isStatusFrame f) =
      ((finalState oracle ids p).tasks).flatMap revealFrames := by
    rw [List.filter_eq_self]
    intro f hf
    rw [List.mem_flatMap] at hf
    obtain ⟨t, _, hft⟩ := hf
    simp [revealFrames_not_status t f hft]
  cases hfin : (finalState oracle ids p).finished with
  | true =>
    simp only [if_true]
    rw [List.filter_append, hself]
    simp [isStatusFrame]
  | false =>
    simp only [Bool.false_eq_true, if_false, List.append_nil]
    exact hself

/-- C9, witness: the per-frame id fact evaluated on a concrete frame of
a concrete record. -/
theorem C9_witness : frameId (Frame.task tA) = some tA.id :=
  (C9_frame_id_consistency oracleAlways idsFixed "p").1 tA (Frame.task tA)
    (by decide)

/-- C10.  For a fixed prompt and a fixed sequence of oracle responses
in which every returned task already carries a non-empty id, the frame
sequence is a deterministic function of the prompt and the responses:
the only other input of the generator, the uuid supply, is never
consulted, so any two uuid supplies produce identical frame
sequences. -/
theorem C10_stream_deterministic (oracle : Nat → OracleResult) (p : String)
    (H : ∀ (n : Nat) (t : Task) (fin : Bool),
      oracle n = OracleResult.ok (some t) fin → t.id ≠ "")
    (ids1 ids2 : Nat → String) :
    streamFrames oracle ids1 p = streamFrames oracle ids2 p := by
  unfold streamFrames runStates
  rw [loop_ids_indep oracle H ids1 ids2 (maxTasks + 1) 0 (initState p)]

/-- C10, witness: identical streams from two different uuid supplies on
a concrete oracle whose candidates all carry non-empty ids. -/
theorem C10_witness :
    streamFrames oracleAlways idsFixed "p" =
      streamFrames oracleAlways idsVaried "p" :=
  C10_stream_deterministic oracleAlways "p"
    (fun n t fin ht => by
      injection ht with h1 h2
      injection h1 with h3
      rw [← h3]
      decide)
    idsFixed idsVaried

end Poc
